import Mathlib

/-!
# Verification of `text_analys` (generate_text.py, text_stats.py)

Shallow embedding of the Markov-chain text generator and of the frequency
reporter of the repository, together with proofs of the specification claims.

Modelling conventions:
* Python `dict`s (insertion-ordered) are modelled as association lists
  `List (κ × Nat)`; `d[k] = 1 / d[k] += 1` is `bump`, `d[k] = v` is `setAt`,
  `k in d` is `lookupA k d ≠ none`.  New keys are appended at the tail,
  matching CPython's insertion order.
* Characters are modelled with Lean `Char`; `str.isalpha`/`str.lower` agree
  with `Char.isAlpha`/`Char.toLower` on the ASCII inputs considered here.
* The randomness source (`np.random.choice`) is modelled by an oracle
  `Nat → Nat` supplying one number per iteration; the drawn element is the
  candidate at index `oracle t % candidates.length`, whose range is exactly
  the support of the distribution the code samples from.  Note that
  `np.random.choice(candidates, 1, weights)` passes `weights` positionally
  as numpy's `replace` argument (a non-empty list, hence truthy), so the
  actual draw is uniform over `candidates`; the distribution itself is
  modelled separately by `npChoiceProb`.
* The 60-second wall-clock cutoff (`time()-start_time < 60`) is not modelled:
  wall-clock time is not representable in the embedding, and the cutoff only
  truncates the loop early without affecting any per-iteration property
  stated in the claims.
* `np.random.choice` raising `ValueError` on an empty candidate list, and the
  CLI validation paths (`quit()` after a printed message), are modelled as
  values of the error type `GenError`.
-/

namespace TA

/-! ## Association lists (Python dicts) -/

/-- `lookupA k d` models `d[k]` / `k in d` for a Python dict. -/
def lookupA {κ : Type} [DecidableEq κ] (k : κ) : List (κ × Nat) → Option Nat
  | [] => none
  | (k', v) :: rest => if k' = k then some v else lookupA k rest

/-- `bump k d` models `if k not in d: d[k] = 1 else: d[k] += 1`
(generate_text.py lines 65-68, text_stats.py lines 92-94 and 108-110). -/
def bump {κ : Type} [DecidableEq κ] (k : κ) : List (κ × Nat) → List (κ × Nat)
  | [] => [(k, 1)]
  | (k', v) :: rest => if k' = k then (k', v + 1) :: rest else (k', v) :: bump k rest

/-- `setAt k v d` models the dict assignment `d[k] = v`. -/
def setAt {κ : Type} [DecidableEq κ] (k : κ) (v : Nat) : List (κ × Nat) → List (κ × Nat)
  | [] => [(k, v)]
  | (k', v') :: rest => if k' = k then (k, v) :: rest else (k', v') :: setAt k v rest

/-! ## Tokenizer (text_stats.py, `clean_text`, lines 28-59) -/

/-- `str.split(" ")`: split at every single space character
(empty pieces are produced between consecutive spaces, as in Python). -/
def splitOnSpace (cur : List Char) : List Char → List (List Char)
  | [] => [cur.reverse]
  | c :: cs => if c = ' ' then cur.reverse :: splitOnSpace [] cs else splitOnSpace (c :: cur) cs

/-- `clean_text` (text_stats.py lines 28-59): join the lines with spaces,
remove every character that is not alphabetic and not a space, lowercase,
split on spaces, drop empty tokens. -/
def clean_text (lines : List String) : List String :=
  let text := (String.intercalate " " lines).data
  let kept := text.filter (fun c => c.isAlpha || c = ' ')
  let lowered := kept.map Char.toLower
  let pieces := splitOnSpace [] lowered
  (pieces.map (fun cs => String.mk cs)).filter (fun s => decide (s ≠ ""))

/-! ## Generator (generate_text.py, `__main__`, lines 42-88) -/

/-- The lazy per-word scan (generate_text.py lines 63-68):
`for i in range(len(input_text)-1): if input_text[i] == current_word:`
bump `(current_word, input_text[i+1])`. -/
def buildPairs (w : String) (wpc : List ((String × String) × Nat)) :
    List String → List ((String × String) × Nat)
  | a :: b :: rest =>
      buildPairs w (if a = w then bump (w, b) wpc else wpc) (b :: rest)
  | _ => wpc

/-- Candidate successors of `w` (generate_text.py lines 75-76):
filter the wordpair keys whose first component is `w`, keep the
second components, in dict insertion order. -/
def candidatesFor (w : String) (wpc : List ((String × String) × Nat)) : List String :=
  (wpc.filter (fun p => decide (p.1.1 = w))).map (fun p => p.1.2)

/-- The weights list (generate_text.py line 77):
`wordpair_count[(current_word, cand)]` for each candidate.
The `getD 0` default is never hit: every candidate comes from a key of the dict. -/
def weightsFor (w : String) (wpc : List ((String × String) × Nat))
    (cands : List String) : List Nat :=
  cands.map (fun c => (lookupA (w, c) wpc).getD 0)

/-- Errors of the generator CLI: the seed-word check (lines 48-51, message
naming the word, then `quit()`), and `np.random.choice` raising `ValueError`
on an empty candidate list (line 78). -/
inductive GenError where
  | unknownSeed (w : String)
  | emptyCandidates
deriving DecidableEq, Repr

/-- The mutable state of the generation loop: `generated_text` (stored in
reverse, newest first), `current_word`, `word_count`, `wordpair_count`
(generate_text.py lines 53-56, 80). -/
structure GenState where
  generated_rev : List String
  current_word : String
  word_count : List (String × Nat)
  wordpair_count : List ((String × String) × Nat)
deriving DecidableEq, Repr

/-- The generated text in output order. -/
def GenState.generatedText (st : GenState) : List String :=
  st.generated_rev.reverse

/-- Number of loop positions `i < len(xs) - 1` with `xs[i] = w`: how many
occurrences of `w` in the corpus have a successor. -/
def countFirstAdj (w : String) : List String → Nat
  | a :: b :: rest => (if a = w then 1 else 0) + countFirstAdj w (b :: rest)
  | _ => 0

/-- Sum of all `wordpair_count` values whose key has first component `w`. -/
def sumFor (w : String) : List ((String × String) × Nat) → Nat
  | [] => 0
  | (k, v) :: rest => (if k.1 = w then v else 0) + sumFor w rest

/-- Candidate selection and draw (generate_text.py lines 74-80): compute the
candidates and weights scoped to `w`, then `np.random.choice(candidates, 1,
weights)[0]`, which draws uniformly from `candidates` (the `weights` value is
dead — it lands in numpy's `replace` parameter, the slip at line 78); append
the drawn word.  An empty candidate list makes `np.random.choice` raise. -/
def stepSelect (k : Nat) (gen : List String) (w : String)
    (wc : List (String × Nat)) (wpc : List ((String × String) × Nat)) :
    Except GenError GenState :=
  let cands := candidatesFor w wpc
  let _weights := weightsFor w wpc cands
  if cands = [] then .error .emptyCandidates
  else
    let chosen := cands.getD (k % cands.length) ""
    .ok ⟨chosen :: gen, chosen, wc, wpc⟩

/-- One iteration of the generation loop (generate_text.py lines 59-80).
The two Python guards at lines 61 and 71 test the same expression
(`current_word not in word_count`, with `word_count` unchanged in between),
so they are modelled as one branch performing both updates: the full corpus
scan into `wordpair_count` (lines 63-68) and
`word_count[current_word] = input_text.count(current_word)` (line 72). -/
def step (corpus : List String) (k : Nat) (st : GenState) : Except GenError GenState :=
  if lookupA st.current_word st.word_count = none then
    stepSelect k st.generated_rev st.current_word
      (setAt st.current_word (corpus.count st.current_word) st.word_count)
      (buildPairs st.current_word st.wordpair_count corpus)
  else
    stepSelect k st.generated_rev st.current_word st.word_count st.wordpair_count

/-- The while loop (generate_text.py line 59): each iteration appends exactly
one word, so running it until `len(generated_text) >= n_words` is running it
for `(n_words - 1).toNat` iterations from the one-word initial state.
`t` counts iterations so that the oracle yields a fresh number each time. -/
def genLoop (corpus : List String) (oracle : Nat → Nat) :
    Nat → Nat → GenState → Except GenError GenState
  | _, 0, st => .ok st
  | t, fuel + 1, st =>
    match step corpus (oracle t) st with
    | .error e => .error e
    | .ok st1 => genLoop corpus oracle (t + 1) fuel st1

/-- The generator (generate_text.py lines 48-80): verify the seed word occurs
in the corpus (lines 48-51), then run the loop from
`generated_text = [current_word]` with empty dicts (lines 53-56). -/
def generate (corpus : List String) (seed : String) (nWords : Int)
    (oracle : Nat → Nat) : Except GenError GenState :=
  if seed ∈ corpus then
    genLoop corpus oracle 0 (nWords - 1).toNat ⟨[seed], seed, [], []⟩
  else .error (.unknownSeed seed)

/-! ## CLI argument processing (generate_text.py lines 28-40) -/

/-- Value of a non-empty all-digit character list. -/
def digitsVal : List Char → Option Nat
  | [] => none
  | cs => if cs.all Char.isDigit
      then some (cs.foldl (fun a c => 10 * a + (c.toNat - '0'.toNat)) 0) else none

/-- Python's `int()` on a plain decimal CLI argument (optional sign, digits);
returns `none` when `int()` would raise `ValueError`. -/
def pyIntOf (s : String) : Option Int :=
  match s.data with
  | '-' :: rest => (digitsVal rest).map (fun n => -(n : Int))
  | '+' :: rest => (digitsVal rest).map (fun n => (n : Int))
  | cs => (digitsVal cs).map (fun n => (n : Int))

/-- Argument processing (generate_text.py lines 28-40):
`file_name = argv[1]; current_word = argv[2].lower(); n_words = int(argv[3])`;
any failure (missing argument or non-numeric length) is caught by the bare
`except`, which prints the usage message and quits — modelled as `none`. -/
def processArgs (argv : List String) : Option (String × String × Int) :=
  match argv with
  | _prog :: f :: w :: n :: _ =>
    match pyIntOf n with
    | some k => some (f, String.map Char.toLower w, k)
    | none => none
  | _ => none

/-! ## Draw distributions (generate_text.py line 78) -/

/-- The probability with which `np.random.choice(candidates, 1, weights)`
returns `x`: the third positional argument of `np.random.choice` is
`replace`, not `p`, so `p = None` and the draw is uniform over `candidates`. -/
def npChoiceProb (cands : List String) (x : String) : ℚ :=
  (cands.count x : ℚ) / (cands.length : ℚ)

/-- Total weight attached to candidate `x` in the paired candidate/weight
lists (each candidate occurs once, so this is its weight or `0`). -/
def weightOf (cands : List String) (weights : List Nat) (x : String) : Nat :=
  (((cands.zip weights).filter (fun p => decide (p.1 = x))).map (fun p => p.2)).sum

/-- Modelled from the spec's words, for comparison with `npChoiceProb`:
"select exactly one successor with probability proportional to its weight
(weight / sum of all weights for this word)". -/
def specWeightedProb (cands : List String) (weights : List Nat) (x : String) : ℚ :=
  (weightOf cands weights x : ℚ) / (weights.sum : ℚ)

/-! ## Frequency reporter (text_stats.py, `get_frequencies`, lines 63-125) -/

/-- The duck-typed `look_for` parameter: the sentinel string `"all"` or a
restricting collection of words. -/
inductive LookFor where
  | all
  | restrictTo (ws : List String)

/-- `look_for == "all" or word in look_for` (text_stats.py lines 91 and 106). -/
def matchesLook (look : LookFor) (w : String) : Bool :=
  match look with
  | .all => true
  | .restrictTo ws => decide (w ∈ ws)

/-- The word-count pass (text_stats.py lines 88-94), before sorting. -/
def wordcountRaw (words : List String) (look : LookFor) : List (String × Nat) :=
  words.foldl (fun acc w => if matchesLook look w then bump w acc else acc) []

/-- The wordpair-count pass (text_stats.py lines 103-110), before sorting:
`for i in range(len(words)-1): if look_for == "all" or words[i] in look_for:`
bump `(words[i], words[i+1])`. -/
def wordpairRaw (look : LookFor) (wpc : List ((String × String) × Nat)) :
    List String → List ((String × String) × Nat)
  | a :: b :: rest =>
      wordpairRaw look (if matchesLook look a then bump (a, b) wpc else wpc) (b :: rest)
  | _ => wpc

/-- The letter-count pass (text_stats.py lines 116-120), before sorting:
count the characters of `"".join(words)`. -/
def lettercountRaw (words : List String) : List (Char × Nat) :=
  (String.join words).data.foldl (fun acc c => bump c acc) []

/-- Stable descending insertion: place `x` after every element whose count is
at least `x`'s count. -/
def insertDesc {α : Type} (x : α × Nat) : List (α × Nat) → List (α × Nat)
  | [] => [x]
  | y :: ys => if x.2 ≤ y.2 then y :: insertDesc x ys else x :: y :: ys

/-- Python's `sorted(d.items(), key=lambda item: item[1], reverse=True)`
(text_stats.py lines 95, 111, 121): a stable sort, descending by count,
ties keeping dict insertion order — realized as a stable insertion sort. -/
def sortDescByCount {α : Type} (l : List (α × Nat)) : List (α × Nat) :=
  l.foldl (fun acc x => insertDesc x acc) []

/-- `get_frequencies` (text_stats.py lines 63-125) with `letter_freq = True`
(its default, used by the reporter CLI at line 159): the three rank-sorted
mappings `(lettercount, wordcount, wordpaircount)`.  The `letter_freq = False`
variant merely omits the first component and is not modelled separately. -/
def get_frequencies (words : List String) (look : LookFor) :
    List (Char × Nat) × List (String × Nat) × List ((String × String) × Nat) :=
  (sortDescByCount (lettercountRaw words),
   sortDescByCount (wordcountRaw words look),
   sortDescByCount (wordpairRaw look [] words))

/-! ## Concrete test fixtures (spec §8) -/

/-- The spec's end-to-end example corpus
`["the","cat","sat","on","the","mat","the","cat","ran"]`. -/
def corpus9 : List String := ["the", "cat", "sat", "on", "the", "mat", "the", "cat", "ran"]

/-- A concrete randomness oracle (always draws index 0) for witnesses. -/
def zeroOracle : Nat → Nat := fun _ => 0

/-! ## Equation lemmas for the two-position recursions -/

lemma buildPairs_nil (w : String) (wpc : List ((String × String) × Nat)) :
    buildPairs w wpc [] = wpc := rfl

lemma buildPairs_one (w a : String) (wpc : List ((String × String) × Nat)) :
    buildPairs w wpc [a] = wpc := rfl

lemma buildPairs_cons2 (w a b : String) (rest : List String)
    (wpc : List ((String × String) × Nat)) :
    buildPairs w wpc (a :: b :: rest) =
      buildPairs w (if a = w then bump (w, b) wpc else wpc) (b :: rest) := rfl

lemma countFirstAdj_cons2 (w a b : String) (rest : List String) :
    countFirstAdj w (a :: b :: rest) =
      (if a = w then 1 else 0) + countFirstAdj w (b :: rest) := rfl

lemma genLoop_zero (corpus : List String) (oracle : Nat → Nat) (t : Nat) (st : GenState) :
    genLoop corpus oracle t 0 st = .ok st := rfl

lemma genLoop_succ (corpus : List String) (oracle : Nat → Nat) (t m : Nat) (st : GenState) :
    genLoop corpus oracle t (m + 1) st =
      match step corpus (oracle t) st with
      | .error e => .error e
      | .ok st1 => genLoop corpus oracle (t + 1) m st1 := rfl

/-! ## Association-list lemmas -/

lemma lookupA_setAt_self {κ : Type} [DecidableEq κ] (k : κ) (v : Nat)
    (l : List (κ × Nat)) : lookupA k (setAt k v l) = some v := by
  induction l with
  | nil => simp [setAt, lookupA]
  | cons p rest ih =>
    obtain ⟨k', v'⟩ := p
    by_cases h : k' = k
    · simp [setAt, h, lookupA]
    · simp [setAt, h, lookupA, ih]

lemma lookupA_setAt_ne {κ : Type} [DecidableEq κ] (k k'' : κ) (v : Nat)
    (hne : k'' ≠ k) (l : List (κ × Nat)) :
    lookupA k'' (setAt k v l) = lookupA k'' l := by
  induction l with
  | nil => simp [setAt, lookupA, Ne.symm hne]
  | cons p rest ih =>
    obtain ⟨k', v'⟩ := p
    by_cases h : k' = k
    · subst h
      simp [setAt, lookupA, Ne.symm hne]
    · simp [setAt, h, lookupA, ih]

lemma lookupA_bump_ne {κ : Type} [DecidableEq κ] (k k'' : κ)
    (hne : k'' ≠ k) (l : List (κ × Nat)) :
    lookupA k'' (bump k l) = lookupA k'' l := by
  induction l with
  | nil => simp [bump, lookupA, Ne.symm hne]
  | cons p rest ih =>
    obtain ⟨k', v'⟩ := p
    by_cases h : k' = k
    · subst h
      simp [bump, lookupA, Ne.symm hne]
    · simp [bump, h, lookupA, ih]

/-! ## `buildPairs` lemmas -/

lemma buildPairs_no_match (w : String) (xs : List String) :
    ∀ wpc, countFirstAdj w xs = 0 → buildPairs w wpc xs = wpc := by
  induction xs with
  | nil => intro wpc _; rfl
  | cons a tl ih =>
    intro wpc h
    cases tl with
    | nil => rfl
    | cons b rest =>
      rw [countFirstAdj_cons2] at h
      by_cases ha : a = w
      · rw [if_pos ha] at h; omega
      · rw [if_neg ha] at h
        rw [buildPairs_cons2, if_neg ha]
        exact ih wpc (by omega)

lemma lookupA_buildPairs_ne (w w' x : String) (hne : w' ≠ w) (xs : List String) :
    ∀ wpc, lookupA (w', x) (buildPairs w wpc xs) = lookupA (w', x) wpc := by
  induction xs with
  | nil => intro wpc; rfl
  | cons a tl ih =>
    intro wpc
    cases tl with
    | nil => rfl
    | cons b rest =>
      rw [buildPairs_cons2, ih]
      by_cases ha : a = w
      · rw [if_pos ha, lookupA_bump_ne _ _ (fun hh => hne (congrArg Prod.fst hh))]
      · rw [if_neg ha]

/-! ## `sumFor` and `countFirstAdj` lemmas -/

lemma countFirstAdj_nil (w : String) : countFirstAdj w [] = 0 := rfl

lemma countFirstAdj_one (w a : String) : countFirstAdj w [a] = 0 := rfl

lemma sumFor_bump_self (w b : String) (l : List ((String × String) × Nat)) :
    sumFor w (bump (w, b) l) = sumFor w l + 1 := by
  induction l with
  | nil => simp [bump, sumFor]
  | cons p rest ih =>
    obtain ⟨kk, v⟩ := p
    by_cases h : kk = (w, b)
    · subst h
      simp [bump, sumFor]
      omega
    · simp only [bump, if_neg h, sumFor, ih]
      omega

lemma sumFor_bump_ne (w w' b : String) (hne : w' ≠ w)
    (l : List ((String × String) × Nat)) :
    sumFor w' (bump (w, b) l) = sumFor w' l := by
  induction l with
  | nil => simp [bump, sumFor, Ne.symm hne]
  | cons p rest ih =>
    obtain ⟨kk, v⟩ := p
    by_cases h : kk = (w, b)
    · subst h
      simp [bump, sumFor, Ne.symm hne]
    · simp only [bump, if_neg h, sumFor, ih]

lemma sumFor_buildPairs_self (w : String) (xs : List String) :
    ∀ wpc, sumFor w (buildPairs w wpc xs) = sumFor w wpc + countFirstAdj w xs := by
  induction xs with
  | nil => intro wpc; simp [buildPairs_nil, countFirstAdj_nil]
  | cons a tl ih =>
    intro wpc
    cases tl with
    | nil => simp [buildPairs_one, countFirstAdj_one]
    | cons b rest =>
      rw [buildPairs_cons2, ih, countFirstAdj_cons2]
      by_cases ha : a = w
      · rw [if_pos ha, if_pos ha, sumFor_bump_self]
        omega
      · rw [if_neg ha, if_neg ha]
        omega

lemma sumFor_buildPairs_ne (w w' : String) (hne : w' ≠ w) (xs : List String) :
    ∀ wpc, sumFor w' (buildPairs w wpc xs) = sumFor w' wpc := by
  induction xs with
  | nil => intro wpc; rw [buildPairs_nil]
  | cons a tl ih =>
    intro wpc
    cases tl with
    | nil => rw [buildPairs_one]
    | cons b rest =>
      rw [buildPairs_cons2, ih]
      by_cases ha : a = w
      · rw [if_pos ha, sumFor_bump_ne w w' b hne]
      · rw [if_neg ha]

lemma countFirstAdj_le_count (w : String) :
    ∀ xs : List String, countFirstAdj w xs ≤ xs.count w := by
  intro xs
  induction xs with
  | nil => simp [countFirstAdj_nil]
  | cons a tl ih =>
    cases tl with
    | nil => simp [countFirstAdj_one]
    | cons b rest =>
      rw [countFirstAdj_cons2, List.count_cons]
      by_cases ha : a = w
      · subst ha
        simp only [if_pos rfl, beq_self_eq_true, if_true]
        omega
      · simp only [if_neg ha]
        have hba : ¬ (a == w) = true := by simp [ha]
        rw [if_neg hba]
        omega

/-! ## `step` characterization -/

lemma getD_mod_mem {α : Type} (l : List α) (k : Nat) (d : α) (h : l ≠ []) :
    l.getD (k % l.length) d ∈ l := by
  have hlen : 0 < l.length := List.length_pos.mpr h
  have hlt : k % l.length < l.length := Nat.mod_lt _ hlen
  rw [List.getD_eq_getElem?_getD, List.getElem?_eq_getElem hlt]
  simp [List.getElem_mem]

lemma stepSelect_ok (k : Nat) (gen : List String) (w : String)
    (wc : List (String × Nat)) (wpc : List ((String × String) × Nat))
    (st' : GenState) (h : stepSelect k gen w wc wpc = .ok st') :
    st'.word_count = wc ∧ st'.wordpair_count = wpc ∧
    st'.current_word ∈ candidatesFor w wpc ∧
    st'.generated_rev = st'.current_word :: gen := by
  simp only [stepSelect] at h
  by_cases hc : candidatesFor w wpc = []
  · rw [if_pos hc] at h; cases h
  · rw [if_neg hc] at h
    cases h
    exact ⟨rfl, rfl, getD_mod_mem _ _ _ hc, rfl⟩

lemma step_ok (corpus : List String) (k : Nat) (st st' : GenState)
    (h : step corpus k st = .ok st') :
    ((lookupA st.current_word st.word_count = none ∧
        st'.word_count =
          setAt st.current_word (corpus.count st.current_word) st.word_count ∧
        st'.wordpair_count = buildPairs st.current_word st.wordpair_count corpus) ∨
      (lookupA st.current_word st.word_count ≠ none ∧
        st'.word_count = st.word_count ∧
        st'.wordpair_count = st.wordpair_count)) ∧
    st'.current_word ∈ candidatesFor st.current_word st'.wordpair_count ∧
    st'.generated_rev = st'.current_word :: st.generated_rev := by
  rw [step] at h
  by_cases hv : lookupA st.current_word st.word_count = none
  · rw [if_pos hv] at h
    obtain ⟨h1, h2, h3, h4⟩ := stepSelect_ok _ _ _ _ _ _ h
    exact ⟨Or.inl ⟨hv, h1, h2⟩, by rw [h2]; exact h3, h4⟩
  · rw [if_neg hv] at h
    obtain ⟨h1, h2, h3, h4⟩ := stepSelect_ok _ _ _ _ _ _ h
    exact ⟨Or.inr ⟨hv, h1, h2⟩, by rw [h2]; exact h3, h4⟩

/-! ## Shared run lemma: small target lengths -/

lemma generate_eq_ok_singleton (corpus : List String) (seed : String) (n : Int)
    (oracle : Nat → Nat) (h : seed ∈ corpus) (hn : n ≤ 1) :
    generate corpus seed n oracle = .ok ⟨[seed], seed, [], []⟩ := by
  have hfuel : (n - 1).toNat = 0 := Int.toNat_of_nonpos (by omega)
  rw [generate, if_pos h, hfuel, genLoop_zero]

/-! ## Idempotence of the statistics (claim C6) -/

lemma step_preserves_visited (corpus : List String) (k : Nat) (st st' : GenState)
    (w : String) (c : Nat) (hw : lookupA w st.word_count = some c)
    (h : step corpus k st = .ok st') :
    lookupA w st'.word_count = some c ∧
    ∀ x, lookupA (w, x) st'.wordpair_count = lookupA (w, x) st.wordpair_count := by
  obtain ⟨hupd, _, _⟩ := step_ok corpus k st st' h
  rcases hupd with ⟨hv, hwc, hwpc⟩ | ⟨hv, hwc, hwpc⟩
  · have hne : w ≠ st.current_word := by
      intro he
      rw [he, hv] at hw
      cases hw
    refine ⟨?_, ?_⟩
    · rw [hwc, lookupA_setAt_ne st.current_word w _ hne, hw]
    · intro x
      rw [hwpc, lookupA_buildPairs_ne st.current_word w x hne corpus]
  · rw [hwc, hwpc]
    exact ⟨hw, fun _ => rfl⟩

lemma genLoop_preserves_visited (corpus : List String) (oracle : Nat → Nat) :
    ∀ (fuel t : Nat) (st st' : GenState) (w : String) (c : Nat),
      lookupA w st.word_count = some c →
      genLoop corpus oracle t fuel st = .ok st' →
      lookupA w st'.word_count = some c ∧
      ∀ x, lookupA (w, x) st'.wordpair_count = lookupA (w, x) st.wordpair_count := by
  intro fuel
  induction fuel with
  | zero =>
    intro t st st' w c hw hrun
    rw [genLoop_zero] at hrun
    cases hrun
    exact ⟨hw, fun _ => rfl⟩
  | succ m ih =>
    intro t st st' w c hw hrun
    rw [genLoop_succ] at hrun
    cases hstep : step corpus (oracle t) st with
    | error e => rw [hstep] at hrun; cases hrun
    | ok st1 =>
      rw [hstep] at hrun
      obtain ⟨hw1, hp1⟩ := step_preserves_visited corpus (oracle t) st st1 w c hw hstep
      obtain ⟨hw2, hp2⟩ := ih (t + 1) st1 st' w c hw1 hrun
      exact ⟨hw2, fun x => (hp2 x).trans (hp1 x)⟩

/-! ## Frequency/transition-sum invariant (claim C7) -/

/-- Invariant of the generation loop: every computed `word_count` entry is
the exact corpus count of its word, and the transition counts for a word sum
to at most that count (and to `0` before the word is visited). -/
def StatsInv (corpus : List String) (st : GenState) : Prop :=
  ∀ w : String,
    (lookupA w st.word_count = none → sumFor w st.wordpair_count = 0) ∧
    ∀ c : Nat, lookupA w st.word_count = some c →
      c = corpus.count w ∧ sumFor w st.wordpair_count ≤ c

lemma statsInv_init (corpus : List String) (seed : String) :
    StatsInv corpus ⟨[seed], seed, [], []⟩ := by
  intro w
  refine ⟨fun _ => rfl, fun c hc => ?_⟩
  cases hc

lemma step_statsInv (corpus : List String) (k : Nat) (st st' : GenState)
    (hInv : StatsInv corpus st) (h : step corpus k st = .ok st') :
    StatsInv corpus st' := by
  obtain ⟨hupd, _, _⟩ := step_ok corpus k st st' h
  rcases hupd with ⟨hv, hwc, hwpc⟩ | ⟨hv, hwc, hwpc⟩
  · intro w
    by_cases hw : w = st.current_word
    · subst hw
      rw [hwc, hwpc]
      constructor
      · intro hnone
        rw [lookupA_setAt_self] at hnone
        cases hnone
      · intro c hc
        rw [lookupA_setAt_self] at hc
        injection hc with hcc
        subst hcc
        refine ⟨rfl, ?_⟩
        rw [sumFor_buildPairs_self, (hInv st.current_word).1 hv, Nat.zero_add]
        exact countFirstAdj_le_count st.current_word corpus
    · rw [hwc, hwpc, lookupA_setAt_ne st.current_word w _ hw,
        sumFor_buildPairs_ne st.current_word w hw corpus]
      exact hInv w
  · intro w
    rw [hwc, hwpc]
    exact hInv w

lemma genLoop_statsInv (corpus : List String) (oracle : Nat → Nat) :
    ∀ (fuel t : Nat) (st st' : GenState), StatsInv corpus st →
      genLoop corpus oracle t fuel st = .ok st' → StatsInv corpus st' := by
  intro fuel
  induction fuel with
  | zero =>
    intro t st st' hInv hrun
    rw [genLoop_zero] at hrun
    cases hrun
    exact hInv
  | succ m ih =>
    intro t st st' hInv hrun
    rw [genLoop_succ] at hrun
    cases hstep : step corpus (oracle t) st with
    | error e => rw [hstep] at hrun; cases hrun
    | ok st1 =>
      rw [hstep] at hrun
      exact ih (t + 1) st1 st' (step_statsInv corpus (oracle t) st st1 hInv hstep) hrun

/-! ## Adjacency invariant (claim C8) -/

lemma mem_bump_fst {κ : Type} [DecidableEq κ] (k : κ) (l : List (κ × Nat))
    (e : κ × Nat) (h : e ∈ bump k l) : e.1 = k ∨ e.1 ∈ l.map Prod.fst := by
  induction l with
  | nil =>
    simp [bump] at h
    left
    rw [h]
  | cons p rest ih =>
    obtain ⟨k', v'⟩ := p
    by_cases hk : k' = k
    · rw [bump, if_pos hk] at h
      rcases List.mem_cons.mp h with rfl | h
      · left; exact hk
      · right
        rw [List.map_cons]
        exact List.mem_cons_of_mem _ (List.mem_map_of_mem _ h)
    · rw [bump, if_neg hk] at h
      rcases List.mem_cons.mp h with rfl | h
      · right
        rw [List.map_cons]
        exact List.mem_cons_self _ _
      · rcases ih h with h1 | h1
        · left; exact h1
        · right
          rw [List.map_cons]
          exact List.mem_cons_of_mem _ h1

lemma zip_tail_cons2 (a b : String) (rest : List String) :
    (a :: b :: rest).zip (a :: b :: rest).tail =
      (a, b) :: (b :: rest).zip (b :: rest).tail := rfl

lemma buildPairs_keys (w : String) (xs : List String) :
    ∀ (wpc : List ((String × String) × Nat)) (e : (String × String) × Nat),
      e ∈ buildPairs w wpc xs →
      e.1 ∈ wpc.map Prod.fst ∨ e.1 ∈ xs.zip xs.tail := by
  induction xs with
  | nil =>
    intro wpc e h
    left
    exact List.mem_map_of_mem _ h
  | cons a tl ih =>
    intro wpc e h
    cases tl with
    | nil =>
      left
      exact List.mem_map_of_mem _ h
    | cons b rest =>
      rw [buildPairs_cons2] at h
      rw [zip_tail_cons2]
      rcases ih _ e h with h1 | h1
      · by_cases ha : a = w
        · rw [if_pos ha] at h1
          obtain ⟨e', he', hfst⟩ := List.mem_map.mp h1
          rcases mem_bump_fst (w, b) wpc e' he' with h2 | h2
          · right
            rw [← hfst, h2, ← ha]
            exact List.mem_cons_self _ _
          · left
            rw [← hfst]
            exact h2
        · rw [if_neg ha] at h1
          left
          exact h1
      · right
        exact List.mem_cons_of_mem _ h1

lemma mem_candidatesFor (w x : String) (wpc : List ((String × String) × Nat))
    (h : x ∈ candidatesFor w wpc) : (w, x) ∈ wpc.map Prod.fst := by
  rw [candidatesFor] at h
  obtain ⟨p, hp, hx⟩ := List.mem_map.mp h
  have hf := List.mem_filter.mp hp
  have h1 : p.1.1 = w := by simpa using hf.2
  have h2 : p.1 = (w, x) := Prod.ext_iff.mpr ⟨h1, hx⟩
  rw [← h2]
  exact List.mem_map_of_mem _ hf.1

/-- Invariant of the generation loop: every recorded transition key is an
adjacent pair of the corpus, the head of the (reversed) output is the
current word, and consecutive output words are corpus-adjacent. -/
def AdjInv (corpus : List String) (st : GenState) : Prop :=
  (∀ e ∈ st.wordpair_count, e.1 ∈ corpus.zip corpus.tail) ∧
  st.generated_rev.head? = some st.current_word ∧
  List.Chain' (fun b a => (a, b) ∈ corpus.zip corpus.tail) st.generated_rev

lemma adjInv_init (corpus : List String) (seed : String) :
    AdjInv corpus ⟨[seed], seed, [], []⟩ :=
  ⟨fun e he => absurd he (List.not_mem_nil e), rfl, List.chain'_singleton seed⟩

lemma step_adjInv (corpus : List String) (k : Nat) (st st' : GenState)
    (hInv : AdjInv corpus st) (h : step corpus k st = .ok st') :
    AdjInv corpus st' := by
  obtain ⟨hupd, hcand, hgen⟩ := step_ok corpus k st st' h
  have hkeys : ∀ e ∈ st'.wordpair_count, e.1 ∈ corpus.zip corpus.tail := by
    rcases hupd with ⟨_, _, hwpc⟩ | ⟨_, _, hwpc⟩
    · rw [hwpc]
      intro e he
      rcases buildPairs_keys st.current_word corpus st.wordpair_count e he with h1 | h1
      · obtain ⟨e', he', hfst⟩ := List.mem_map.mp h1
        rw [← hfst]
        exact hInv.1 e' he'
      · exact h1
    · rw [hwpc]
      exact hInv.1
  refine ⟨hkeys, ?_, ?_⟩
  · rw [hgen]; rfl
  · rw [hgen, List.chain'_cons']
    refine ⟨?_, hInv.2.2⟩
    intro y hy
    have hyc : y = st.current_word := by
      rw [hInv.2.1] at hy
      exact (Option.mem_some_iff.mp hy).symm
    subst hyc
    have h2 := mem_candidatesFor st.current_word st'.current_word st'.wordpair_count hcand
    obtain ⟨e, he, hfst⟩ := List.mem_map.mp h2
    rw [← hfst]
    exact hkeys e he

lemma genLoop_adjInv (corpus : List String) (oracle : Nat → Nat) :
    ∀ (fuel t : Nat) (st st' : GenState), AdjInv corpus st →
      genLoop corpus oracle t fuel st = .ok st' → AdjInv corpus st' := by
  intro fuel
  induction fuel with
  | zero =>
    intro t st st' hInv hrun
    rw [genLoop_zero] at hrun
    cases hrun
    exact hInv
  | succ m ih =>
    intro t st st' hInv hrun
    rw [genLoop_succ] at hrun
    cases hstep : step corpus (oracle t) st with
    | error e => rw [hstep] at hrun; cases hrun
    | ok st1 =>
      rw [hstep] at hrun
      exact ih (t + 1) st1 st' (step_adjInv corpus (oracle t) st st1 hInv hstep) hrun

/-! ## Stability and sortedness of the reporter sort (claim C9) -/

lemma mem_insertDesc {α : Type} (x y : α × Nat) (l : List (α × Nat))
    (h : y ∈ insertDesc x l) : y = x ∨ y ∈ l := by
  induction l with
  | nil =>
    simp [insertDesc] at h
    left
    exact h
  | cons z zs ih =>
    rw [insertDesc] at h
    by_cases hc : x.2 ≤ z.2
    · rw [if_pos hc] at h
      rcases List.mem_cons.mp h with rfl | h
      · right; exact List.mem_cons_self _ _
      · rcases ih h with h1 | h1
        · left; exact h1
        · right; exact List.mem_cons_of_mem _ h1
    · rw [if_neg hc] at h
      rcases List.mem_cons.mp h with rfl | h
      · left; rfl
      · right; exact h

lemma pairwise_insertDesc {α : Type} (x : α × Nat) (l : List (α × Nat))
    (h : List.Pairwise (fun a b : α × Nat => b.2 ≤ a.2) l) :
    List.Pairwise (fun a b : α × Nat => b.2 ≤ a.2) (insertDesc x l) := by
  induction l with
  | nil => simp [insertDesc]
  | cons z zs ih =>
    rw [List.pairwise_cons] at h
    rw [insertDesc]
    by_cases hc : x.2 ≤ z.2
    · rw [if_pos hc, List.pairwise_cons]
      constructor
      · intro b hb
        rcases mem_insertDesc x b zs hb with rfl | hb
        · exact hc
        · exact h.1 b hb
      · exact ih h.2
    · rw [if_neg hc, List.pairwise_cons]
      constructor
      · intro b hb
        rcases List.mem_cons.mp hb with rfl | hb
        · omega
        · have := h.1 b hb
          omega
      · exact List.pairwise_cons.mpr h

lemma pairwise_sortDescByCount {α : Type} (l : List (α × Nat)) :
    List.Pairwise (fun a b : α × Nat => b.2 ≤ a.2) (sortDescByCount l) := by
  rw [sortDescByCount]
  have h : ∀ acc : List (α × Nat),
      List.Pairwise (fun a b : α × Nat => b.2 ≤ a.2) acc →
      List.Pairwise (fun a b : α × Nat => b.2 ≤ a.2)
        (l.foldl (fun acc x => insertDesc x acc) acc) := by
    induction l with
    | nil => intro acc hacc; exact hacc
    | cons x xs ih =>
      intro acc hacc
      exact ih _ (pairwise_insertDesc x acc hacc)
  exact h [] (by simp)

/-! ## Claims -/

/-- C1 (code bug): on the spec's corpus with current word `"the"`, the lazy
scan records the transition counts `("the","cat") ↦ 2`, `("the","mat") ↦ 1`,
the candidate and weight lists are `["cat","mat"]` and `[2,1]`, and
`WordFrequency["the"] = 3` — but the successor is NOT drawn with
probabilities 2/3 and 1/3: `np.random.choice(candidates, 1, weights)` passes
`weights` as numpy's `replace` argument (generate_text.py line 78), so the
realized draw is uniform, probability 1/2 each, while the intended weighted
draw written in the code's comment and in the spec would give 2/3 and 1/3. -/
theorem c1_weighted_draw_is_actually_uniform :
    buildPairs "the" [] corpus9 = [(("the", "cat"), 2), (("the", "mat"), 1)] ∧
    candidatesFor "the" (buildPairs "the" [] corpus9) = ["cat", "mat"] ∧
    weightsFor "the" (buildPairs "the" [] corpus9) ["cat", "mat"] = [2, 1] ∧
    corpus9.count "the" = 3 ∧
    generate corpus9 "the" 2 zeroOracle =
      .ok ⟨["cat", "the"], "cat", [("the", 3)],
            [(("the", "cat"), 2), (("the", "mat"), 1)]⟩ ∧
    npChoiceProb ["cat", "mat"] "cat" = 1 / 2 ∧
    npChoiceProb ["cat", "mat"] "mat" = 1 / 2 ∧
    specWeightedProb ["cat", "mat"] [2, 1] "cat" = 2 / 3 ∧
    specWeightedProb ["cat", "mat"] [2, 1] "mat" = 1 / 3 ∧
    npChoiceProb ["cat", "mat"] "cat" ≠ specWeightedProb ["cat", "mat"] [2, 1] "cat" := by
  have hcount : List.count "cat" ["cat", "mat"] = 1 := by decide
  have hcount2 : List.count "mat" ["cat", "mat"] = 1 := by decide
  have hlen : (["cat", "mat"] : List String).length = 2 := by decide
  have hw1 : weightOf ["cat", "mat"] [2, 1] "cat" = 2 := by decide
  have hw2 : weightOf ["cat", "mat"] [2, 1] "mat" = 1 := by decide
  have hsum : ([2, 1] : List Nat).sum = 3 := by decide
  have hnp1 : npChoiceProb ["cat", "mat"] "cat" = 1 / 2 := by
    simp only [npChoiceProb, hcount, hlen]; norm_num
  have hsp1 : specWeightedProb ["cat", "mat"] [2, 1] "cat" = 2 / 3 := by
    simp only [specWeightedProb, hw1, hsum]; norm_num
  refine ⟨by rfl, by rfl, by rfl, by decide, by rfl, hnp1, ?_, hsp1, ?_, ?_⟩
  · simp only [npChoiceProb, hcount2, hlen]; norm_num
  · simp only [specWeightedProb, hw2, hsum]; norm_num
  · rw [hnp1, hsp1]; norm_num

/-- C2 counterexample: the tokenizer does NOT split hyphen-joined words; on
`"The Cat, sat ON the-mat!"` it does not produce
`["the","cat","sat","on","the","mat"]`. -/
theorem c2_counterexample :
    clean_text ["The Cat, sat ON the-mat!"] ≠
      ["the", "cat", "sat", "on", "the", "mat"] := by decide

/-- C2 (amended): the tokenizer maps `"The Cat, sat ON the-mat!"` to
`["the","cat","sat","on","themat"]`: punctuation and hyphens are removed and
case is folded, but words joined by a removed character are merged into one
token (the removed hyphen leaves no separator), not split. -/
theorem c2_tokenizer_merges_hyphenated :
    clean_text ["The Cat, sat ON the-mat!"] =
      ["the", "cat", "sat", "on", "themat"] := by decide

/-- C3 counterexample: a non-positive target length does not fail — with
`n_words = 0` the generator succeeds and returns the seed-word sequence
(the while loop at generate_text.py line 59 never runs). -/
theorem c3_counterexample :
    generate ["a"] "a" 0 zeroOracle = .ok ⟨["a"], "a", [], []⟩ := rfl

/-- C3 (amended): a non-numeric target length fails at the argument-parsing
boundary (the bare `except` at generate_text.py lines 32-40 prints the
generic usage message and quits; there is no distinct `InvalidLengthError`);
a non-positive integer target length is NOT rejected: the generator runs
zero iterations and returns exactly the one-element sequence `[seed_word]`. -/
theorem c3_nonnumeric_rejected_nonpositive_accepted :
    processArgs ["generate_text.py", "corpus.txt", "word", "abc"] = none ∧
    ∀ (corpus : List String) (seed : String) (oracle : Nat → Nat) (n : Int),
      seed ∈ corpus → n ≤ 0 →
      (generate corpus seed n oracle).map GenState.generatedText = .ok [seed] := by
  refine ⟨rfl, ?_⟩
  intro corpus seed oracle n h hn
  rw [generate_eq_ok_singleton corpus seed n oracle h (by omega)]
  rfl

theorem c3_nonnumeric_rejected_nonpositive_accepted_witness :
    processArgs ["generate_text.py", "corpus.txt", "word", "abc"] = none ∧
    (generate ["a"] "a" (-2) zeroOracle).map GenState.generatedText = .ok ["a"] :=
  ⟨c3_nonnumeric_rejected_nonpositive_accepted.1,
   c3_nonnumeric_rejected_nonpositive_accepted.2 ["a"] "a" zeroOracle (-2)
     (by decide) (by decide)⟩

/-- C4: for every corpus and every seed word not occurring in it, the
generator fails with the unknown-seed error naming the word
(generate_text.py lines 48-51) before any generation: no statistics are
built and no output state is produced. -/
theorem c4_unknown_seed_fails_before_generation (corpus : List String)
    (seed : String) (n : Int) (oracle : Nat → Nat) (h : seed ∉ corpus) :
    generate corpus seed n oracle = .error (.unknownSeed seed) := by
  rw [generate, if_neg h]

theorem c4_unknown_seed_fails_before_generation_witness :
    generate corpus9 "dog" 5 zeroOracle = .error (.unknownSeed "dog") :=
  c4_unknown_seed_fails_before_generation corpus9 "dog" 5 zeroOracle (by decide)

/-- C5: for every corpus and every word occurring in it, the generator with
that seed and target length 1 returns exactly `[seed_word]`: the while
condition `1 < 1` is false, so the loop body never runs. -/
theorem c5_target_length_one_returns_seed (corpus : List String) (seed : String)
    (oracle : Nat → Nat) (h : seed ∈ corpus) :
    (generate corpus seed 1 oracle).map GenState.generatedText = .ok [seed] := by
  rw [generate_eq_ok_singleton corpus seed 1 oracle h le_rfl]
  rfl

theorem c5_target_length_one_returns_seed_witness :
    (generate corpus9 "the" 1 zeroOracle).map GenState.generatedText = .ok ["the"] :=
  c5_target_length_one_returns_seed corpus9 "the" zeroOracle (by decide)

/-- C10: when the current word has no recorded successor (it never occurs
with a successor in the corpus) and the target length is not yet reached,
the generator reaches the draw with empty candidate and weight lists and the
draw fails (`np.random.choice` raises on an empty list) — it does not
terminate early with the sequence generated so far. -/
theorem c10_empty_candidates_fails (corpus : List String) (seed : String)
    (n : Int) (oracle : Nat → Nat) (h : seed ∈ corpus)
    (hadj : countFirstAdj seed corpus = 0) (hn : 2 ≤ n) :
    generate corpus seed n oracle = .error .emptyCandidates := by
  have hm : (n - 1).toNat = (n - 2).toNat + 1 := by omega
  rw [generate, if_pos h, hm, genLoop_succ]
  have hstep : step corpus (oracle 0) ⟨[seed], seed, [], []⟩ = .error .emptyCandidates := by
    rw [step]
    have hnone : lookupA seed ([] : List (String × Nat)) = none := rfl
    rw [if_pos hnone, buildPairs_no_match seed corpus [] hadj]
    rfl
  rw [hstep]

theorem c10_empty_candidates_fails_witness :
    generate ["a", "b"] "b" 2 zeroOracle = .error .emptyCandidates :=
  c10_empty_candidates_fails ["a", "b"] "b" 2 zeroOracle (by decide) (by decide)
    (by decide)

/-- C6: the statistics build is idempotent per word — once a word has a
`word_count` entry (the double-duty "visited" flag), no further iterations
of the loop, from any state and for any randomness, change that entry or any
`wordpair_count` entry whose first component is that word: the per-word scan
happens exactly once. -/
theorem c6_statistics_built_once (corpus : List String) (oracle : Nat → Nat)
    (t fuel : Nat) (st st' : GenState) (w : String) (c : Nat)
    (hw : lookupA w st.word_count = some c)
    (hrun : genLoop corpus oracle t fuel st = .ok st') :
    lookupA w st'.word_count = some c ∧
    ∀ x, lookupA (w, x) st'.wordpair_count = lookupA (w, x) st.wordpair_count :=
  genLoop_preserves_visited corpus oracle fuel t st st' w c hw hrun

theorem c6_statistics_built_once_witness :
    lookupA "the" [("the", 3), ("cat", 2)] = some 3 ∧
    lookupA ("the", "cat")
        [(("the", "cat"), 2), (("the", "mat"), 1), (("cat", "sat"), 1),
          (("cat", "ran"), 1)] =
      lookupA ("the", "cat") [(("the", "cat"), 2), (("the", "mat"), 1)] :=
  have h := c6_statistics_built_once corpus9 zeroOracle 0 2
    ⟨["the"], "the", [("the", 3)], [(("the", "cat"), 2), (("the", "mat"), 1)]⟩
    ⟨["sat", "cat", "the"], "sat", [("the", 3), ("cat", 2)],
      [(("the", "cat"), 2), (("the", "mat"), 1), (("cat", "sat"), 1),
        (("cat", "ran"), 1)]⟩
    "the" 3 (by rfl) (by rfl)
  ⟨h.1, h.2 "cat"⟩

/-- C7: in every successful run, every computed `WordFrequency` entry equals
the total number of occurrences of its word in the corpus, and is at least
the sum of all recorded transition counts whose first component is that word
(a final-position occurrence is counted in the frequency but yields no
transition). -/
theorem c7_word_frequency_bounds (corpus : List String) (seed : String)
    (n : Int) (oracle : Nat → Nat) (st : GenState) (w : String) (c : Nat)
    (hrun : generate corpus seed n oracle = .ok st)
    (hw : lookupA w st.word_count = some c) :
    c = corpus.count w ∧ sumFor w st.wordpair_count ≤ c := by
  by_cases hmem : seed ∈ corpus
  · rw [generate, if_pos hmem] at hrun
    exact ((genLoop_statsInv corpus oracle _ 0 _ st (statsInv_init corpus seed)
      hrun) w).2 c hw
  · rw [generate, if_neg hmem] at hrun
    cases hrun

theorem c7_word_frequency_bounds_witness :
    3 = corpus9.count "the" ∧
      sumFor "the" [(("the", "cat"), 2), (("the", "mat"), 1)] ≤ 3 :=
  c7_word_frequency_bounds corpus9 "the" 2 zeroOracle
    ⟨["cat", "the"], "cat", [("the", 3)], [(("the", "cat"), 2), (("the", "mat"), 1)]⟩
    "the" 3 (by rfl) (by rfl)

/-- C8: in every successful run, every word appended by the generation loop
immediately follows the preceding word somewhere in the corpus (it was drawn
from the recorded transitions of the preceding word, all of which have
nonzero count and come from adjacent corpus positions): consecutive words of
the output are always corpus-adjacent. -/
theorem c8_generated_words_follow_predecessor (corpus : List String)
    (seed : String) (n : Int) (oracle : Nat → Nat) (st : GenState)
    (hrun : generate corpus seed n oracle = .ok st) :
    List.Chain' (fun a b => (a, b) ∈ corpus.zip corpus.tail) st.generatedText := by
  have hInv : AdjInv corpus st := by
    by_cases hmem : seed ∈ corpus
    · rw [generate, if_pos hmem] at hrun
      exact genLoop_adjInv corpus oracle _ 0 _ st (adjInv_init corpus seed) hrun
    · rw [generate, if_neg hmem] at hrun
      cases hrun
  rw [GenState.generatedText, List.chain'_reverse]
  exact hInv.2.2

theorem c8_generated_words_follow_predecessor_witness :
    List.Chain' (fun a b => (a, b) ∈ corpus9.zip corpus9.tail)
      (GenState.generatedText
        ⟨["sat", "cat", "the"], "sat", [("the", 3), ("cat", 2)],
          [(("the", "cat"), 2), (("the", "mat"), 1), (("cat", "sat"), 1),
            (("cat", "ran"), 1)]⟩) :=
  c8_generated_words_follow_predecessor corpus9 "the" 3 zeroOracle _ (by rfl)

/-- C9: `get_frequencies` returns rank-sorted mappings, descending by count
(stable, ties in first-occurrence order); on the spec's 9-token corpus the
word ranking is `"the"` (3) above `"cat"` (2) above `"sat"`, `"on"`, `"mat"`,
`"ran"` (1 each), and the pair `("the","cat")` has count 2. -/
theorem c9_get_frequencies_ranked :
    (get_frequencies corpus9 .all).2.1 =
      [("the", 3), ("cat", 2), ("sat", 1), ("on", 1), ("mat", 1), ("ran", 1)] ∧
    lookupA ("the", "cat") (get_frequencies corpus9 .all).2.2 = some 2 ∧
    ∀ (α : Type) (l : List (α × Nat)),
      List.Pairwise (fun a b : α × Nat => b.2 ≤ a.2) (sortDescByCount l) :=
  ⟨by rfl, by rfl, fun α l => pairwise_sortDescByCount l⟩

end TA
